import Mathlib

/-!
A shallow embedding of `src/get_char.cpp`: a FreeType outline-decomposition
consumer that accumulates move/line/conic callback events into a `GlyphPath`
and renders it as fixed-width text.

Modelling conventions:
* C++ `long` coordinates are modelled as `Int` (the program performs no
  arithmetic on them, so machine width never matters).
* `std::vector` is modelled as `List`; `push_back` is `· ++ [x]`.
* `path->back()` on an empty vector is undefined behaviour in C++; every
  operation that would reach it is modelled as returning `none`.
* Each callback returns `Option (GlyphPath × Int)`: the mutated accumulator
  together with the C `int` return value, or `none` when the C++ code would
  hit undefined behaviour.
-/

/-- `enum class PointType` from get_char.cpp. -/
inductive PointType where
  | MOVE_TO
  | LINE_TO
  | CONIC_TO
deriving DecidableEq, Repr

/-- `struct VectorPoint { long x; long y; }`. -/
structure VectorPoint where
  x : Int
  y : Int
deriving DecidableEq, Repr

/-- `struct PathSegment { PointType type; VectorPoint to; VectorPoint control; }`.
(`to` is a reserved token in Lean, hence the guillemet quoting.) -/
structure PathSegment where
  type : PointType
  «to» : VectorPoint
  control : VectorPoint
deriving DecidableEq, Repr

/-- `using Contour = std::vector<PathSegment>`. -/
abbrev Contour := List PathSegment

/-- `using GlyphPath = std::vector<Contour>`. -/
abbrev GlyphPath := List Contour

/-- `path->back().push_back(seg)`: append `seg` to the last contour.
On an empty path this is never called by the model (callers guard it);
we return `[]` in that dead branch. -/
def pushBackLast : GlyphPath → PathSegment → GlyphPath
  | [], _ => []
  | [c], seg => [c ++ [seg]]
  | c :: c2 :: rest, seg => c :: pushBackLast (c2 :: rest) seg

/-- `MoveToFunc` (get_char.cpp lines 38–45): push an empty contour, then
append a `MOVE_TO` segment to it, and return 0. -/
def MoveToFunc («to» : VectorPoint) (path : GlyphPath) : Option (GlyphPath × Int) :=
  let path1 : GlyphPath := path ++ [([] : Contour)]
  some (pushBackLast path1 ⟨PointType.MOVE_TO, «to», ⟨0, 0⟩⟩, 0)

/-- `LineToFunc` (get_char.cpp lines 48–52): append a `LINE_TO` segment to
`path->back()` and return 0. There is no emptiness check in the source:
`back()` on an empty accumulator is undefined behaviour, modelled as `none`. -/
def LineToFunc («to» : VectorPoint) (path : GlyphPath) : Option (GlyphPath × Int) :=
  match path with
  | [] => none
  | _ :: _ => some (pushBackLast path ⟨PointType.LINE_TO, «to», ⟨0, 0⟩⟩, 0)

/-- `ConicToFunc` (get_char.cpp lines 55–59): append a `CONIC_TO` segment to
`path->back()` and return 0. As in `LineToFunc`, `back()` on an empty
accumulator is undefined behaviour, modelled as `none`. -/
def ConicToFunc (control «to» : VectorPoint) (path : GlyphPath) : Option (GlyphPath × Int) :=
  match path with
  | [] => none
  | _ :: _ => some (pushBackLast path ⟨PointType.CONIC_TO, «to», control⟩, 0)

/-- `CubicToFunc` (get_char.cpp lines 62–64): ignores all arguments, touches
nothing, returns 0. -/
def CubicToFunc (control1 control2 «to» : VectorPoint) (path : GlyphPath) :
    Option (GlyphPath × Int) :=
  some (path, 0)

/-- One callback invocation the decomposition walk can emit. -/
inductive FTEvent where
  | moveTo («to» : VectorPoint)
  | lineTo («to» : VectorPoint)
  | conicTo (control «to» : VectorPoint)
  | cubicTo (control1 control2 «to» : VectorPoint)
deriving DecidableEq, Repr

/-- Dispatch one event to the matching callback of get_char.cpp. -/
def runEvent : FTEvent → GlyphPath → Option (GlyphPath × Int)
  | .moveTo p, path => MoveToFunc p path
  | .lineTo p, path => LineToFunc p path
  | .conicTo c p, path => ConicToFunc c p path
  | .cubicTo c1 c2 p, path => CubicToFunc c1 c2 p path

/-- Drive a sequence of callback events over the accumulator, as
`FT_Outline_Decompose` does: a nonzero callback return value aborts the walk
(never taken by these callbacks); undefined behaviour propagates as `none`. -/
def runEvents : List FTEvent → GlyphPath → Option GlyphPath
  | [], path => some path
  | e :: es, path =>
    match runEvent e path with
    | none => none
    | some (path1, ret) => if ret = 0 then runEvents es path1 else none

/-- An edge event of one contour in a quadratic-only outline: the events that
may follow the opening `moveTo`. -/
inductive Edge where
  | lineTo («to» : VectorPoint)
  | conicTo (control «to» : VectorPoint)
deriving DecidableEq, Repr

/-- One source contour as the decomposition contract presents it: exactly one
opening point followed by its edges. -/
structure ContourSpec where
  start : VectorPoint
  edges : List Edge
deriving DecidableEq, Repr

/-- The callback an edge triggers. -/
def edgeEvent : Edge → FTEvent
  | .lineTo p => .lineTo p
  | .conicTo c p => .conicTo c p

/-- The protocol-respecting event stream of one contour: one `moveTo`, then
its edges. -/
def contourEvents (cs : ContourSpec) : List FTEvent :=
  .moveTo cs.start :: cs.edges.map edgeEvent

/-- The protocol-respecting event stream of a whole outline. -/
def outlineEvents (outline : List ContourSpec) : List FTEvent :=
  (outline.map contourEvents).flatten

/-- The segment an edge's callback appends. -/
def edgeSegment : Edge → PathSegment
  | .lineTo p => ⟨PointType.LINE_TO, p, ⟨0, 0⟩⟩
  | .conicTo c p => ⟨PointType.CONIC_TO, p, c⟩

/-- The contour the callbacks build from one source contour. -/
def contourPath (cs : ContourSpec) : Contour :=
  ⟨PointType.MOVE_TO, cs.start, ⟨0, 0⟩⟩ :: cs.edges.map edgeSegment

/-- A contour is well formed when it is nonempty and starts with `MOVE_TO`. -/
def contourWF : Contour → Bool
  | [] => false
  | seg :: _ => seg.type = PointType.MOVE_TO

/-- Every contour of the path is well formed. -/
def pathWF (path : GlyphPath) : Bool :=
  path.all contourWF

-- Basic lemmas about the accumulator.

theorem pushBackLast_append (p : GlyphPath) (c : Contour) (seg : PathSegment) :
    pushBackLast (p ++ [c]) seg = p ++ [c ++ [seg]] := by
  induction p with
  | nil => rfl
  | cons hd tl ih =>
    cases tl with
    | nil => simp [pushBackLast]
    | cons hd2 tl2 => simpa [pushBackLast] using ih

theorem runEvents_append (as bs : List FTEvent) (p : GlyphPath) :
    runEvents (as ++ bs) p = (runEvents as p).bind (runEvents bs) := by
  induction as generalizing p with
  | nil => simp [runEvents]
  | cons e es ih =>
    simp only [List.cons_append, runEvents]
    cases runEvent e p with
    | none => rfl
    | some pr =>
      by_cases h : pr.2 = 0 <;> simp [h, ih]

theorem MoveToFunc_eq (pt : VectorPoint) (path : GlyphPath) :
    MoveToFunc pt path = some (path ++ [[⟨PointType.MOVE_TO, pt, ⟨0, 0⟩⟩]], 0) := by
  simp [MoveToFunc, pushBackLast_append]

theorem LineToFunc_ne_nil (pt : VectorPoint) (path : GlyphPath) (h : path ≠ []) :
    LineToFunc pt path = some (pushBackLast path ⟨PointType.LINE_TO, pt, ⟨0, 0⟩⟩, 0) := by
  cases path with
  | nil => exact absurd rfl h
  | cons hd tl => rfl

theorem ConicToFunc_ne_nil (ctl pt : VectorPoint) (path : GlyphPath) (h : path ≠ []) :
    ConicToFunc ctl pt path = some (pushBackLast path ⟨PointType.CONIC_TO, pt, ctl⟩, 0) := by
  cases path with
  | nil => exact absurd rfl h
  | cons hd tl => rfl

theorem runEvent_edge (e : Edge) (p : GlyphPath) (c : Contour) :
    runEvent (edgeEvent e) (p ++ [c]) = some (p ++ [c ++ [edgeSegment e]], 0) := by
  cases e with
  | lineTo pt =>
    rw [edgeEvent, runEvent, LineToFunc_ne_nil _ _ (by simp), pushBackLast_append]
    rfl
  | conicTo ctl pt =>
    rw [edgeEvent, runEvent, ConicToFunc_ne_nil _ _ _ (by simp), pushBackLast_append]
    rfl

theorem runEvents_edges (es : List Edge) (p : GlyphPath) (c : Contour) :
    runEvents (es.map edgeEvent) (p ++ [c]) = some (p ++ [c ++ es.map edgeSegment]) := by
  induction es generalizing c with
  | nil => simp [runEvents]
  | cons e es ih =>
    simp only [List.map_cons, runEvents, runEvent_edge]
    simpa using ih (c ++ [edgeSegment e])

theorem runEvents_contour (cs : ContourSpec) (p : GlyphPath) :
    runEvents (contourEvents cs) p = some (p ++ [contourPath cs]) := by
  simp only [contourEvents, runEvents, runEvent, MoveToFunc_eq]
  simpa [contourPath] using
    runEvents_edges cs.edges p [⟨PointType.MOVE_TO, cs.start, ⟨0, 0⟩⟩]

theorem runEvents_outline (outline : List ContourSpec) (p : GlyphPath) :
    runEvents (outlineEvents outline) p = some (p ++ outline.map contourPath) := by
  induction outline generalizing p with
  | nil => simp [outlineEvents, runEvents]
  | cons cs rest ih =>
    simp only [outlineEvents, List.map_cons, List.flatten, runEvents_append,
      runEvents_contour, Option.bind]
    simpa [outlineEvents] using ih (p ++ [contourPath cs])

-- --- The Path Renderer (get_char.cpp lines 69–95) ---

/-- `std::right << std::setw(w)` applied to a printed value: pad with spaces
on the left up to width `w` (a longer value is printed in full). -/
def setwRight (w : Nat) (s : String) : String :=
  String.mk (List.replicate (w - s.length) ' ') ++ s

/-- The `switch (segment.type)` body of `PrintGlyphPath`: the line printed
for one segment, indentation and newline included. -/
def renderSegment (segment : PathSegment) : String :=
  match segment.type with
  | PointType.MOVE_TO =>
    "      MoveTo (" ++ setwRight 5 (toString segment.«to».x) ++ ", " ++
      setwRight 5 (toString segment.«to».y) ++ ")\n"
  | PointType.LINE_TO =>
    "      LineTo (" ++ setwRight 5 (toString segment.«to».x) ++ ", " ++
      setwRight 5 (toString segment.«to».y) ++ ")\n"
  | PointType.CONIC_TO =>
    "      QuadTo (" ++ setwRight 5 (toString segment.control.x) ++ ", " ++
      setwRight 5 (toString segment.control.y) ++ ") (" ++
      setwRight 5 (toString segment.«to».x) ++ ", " ++
      setwRight 5 (toString segment.«to».y) ++ ")\n"

/-- The `for (size_t i = 0; ...)` loop of `PrintGlyphPath`, carrying the
0-based loop counter. -/
def renderContours : GlyphPath → Nat → String
  | [], _ => ""
  | c :: rest, i =>
    "   Contour #" ++ setwRight 2 (toString (i + 1)) ++ "\n" ++
      String.join (c.map renderSegment) ++ renderContours rest (i + 1)

/-- `PrintGlyphPath` (get_char.cpp lines 69–95) as the string it writes to
standard output. -/
def PrintGlyphPath (path : GlyphPath) : String :=
  "// Extracted Glyph Path:\n" ++ renderContours path 0

-- Spec-side rendering, written from the spec's words (§4.3), to be compared
-- with the source-translated `PrintGlyphPath`.

/-- From the spec's words: right-align a printed value to a field width. -/
def rightAlign (w : Nat) (s : String) : String :=
  if s.length < w then String.mk (List.replicate (w - s.length) ' ') ++ s else s

/-- From the spec's words: a coordinate right-aligned to width 5. -/
def coordSpec (n : Int) : String :=
  rightAlign 5 (toString n)

/-- From the spec's words: the kind label and coordinates of one segment, in
one of the three documented forms. -/
def segmentLineSpec (segment : PathSegment) : String :=
  match segment.type with
  | PointType.MOVE_TO =>
    "MoveTo (" ++ coordSpec segment.«to».x ++ ", " ++ coordSpec segment.«to».y ++ ")"
  | PointType.LINE_TO =>
    "LineTo (" ++ coordSpec segment.«to».x ++ ", " ++ coordSpec segment.«to».y ++ ")"
  | PointType.CONIC_TO =>
    "QuadTo (" ++ coordSpec segment.control.x ++ ", " ++ coordSpec segment.control.y ++
      ") (" ++ coordSpec segment.«to».x ++ ", " ++ coordSpec segment.«to».y ++ ")"

/-- From the spec's words: one contour block under its 1-based index,
right-aligned to width 2. -/
def contourBlockSpec (idx : Nat) (c : Contour) : String :=
  "   Contour #" ++ rightAlign 2 (toString idx) ++ "\n" ++
    String.join (c.map (fun s => "      " ++ segmentLineSpec s ++ "\n"))

/-- From the spec's words: all contour blocks, indices starting at 1. -/
def contoursSpec : Nat → GlyphPath → String
  | _, [] => ""
  | idx, c :: rest => contourBlockSpec idx c ++ contoursSpec (idx + 1) rest

/-- From the spec's words: the whole rendering. -/
def printGlyphPathSpec (path : GlyphPath) : String :=
  "// Extracted Glyph Path:\n" ++ contoursSpec 1 path

-- --- The main program (get_char.cpp lines 97–182) ---

/-- FreeType's `FT_Err_Unknown_File_Format` error code. -/
def FT_Err_Unknown_File_Format : Int := 2

/-- FreeType's `FT_GLYPH_FORMAT_OUTLINE` image tag, the four bytes 'outl'. -/
def FT_GLYPH_FORMAT_OUTLINE : Nat := 0x6F75746C

/-- Answers of the external FreeType engine to every call `main` makes,
specified at the interface boundary (§6 of the spec): argument vector, status
codes, the character-to-glyph-index map, the loaded glyph's format, and the
outline the engine would decompose. -/
structure Env where
  argv : List String
  initError : Int
  newFaceError : Int
  charIndex : Char → Nat
  loadError : Int
  glyphFormat : Nat
  outline : List ContourSpec
  decomposeError : Int

/-- Modelled from the spec: `FT_Outline_Decompose` is external to this
repository; per §4.1 it walks the outline emitting exactly one `moveTo`
opening each contour followed by that contour's edge callbacks, aborts when a
callback returns nonzero, and reports the engine's status. -/
def decomposeOutline (outline : List ContourSpec) (engineStatus : Int)
    (path : GlyphPath) : Option (Int × GlyphPath) :=
  (runEvents (outlineEvents outline) path).map (fun p => (engineStatus, p))

/-- `argv[2][0]`: the first byte of an argument string (the terminating
`'\0'` when the argument is empty). Arguments are modelled at `Char`
granularity, which coincides with bytes for ASCII input. -/
def argFirstChar (s : String) : Char :=
  s.data.headD (Char.ofNat 0)

/-- `main` (get_char.cpp lines 97–182) with every external FreeType call
answered by `env`: the exit code together with everything written to standard
output (standard error is not modelled). `none` marks a run reaching
undefined behaviour, which the engine's protocol-respecting event streams
never do. -/
def mainRun (env : Env) : Option (Int × String) :=
  match env.argv with
  | [_prog, font_path, char_arg] =>
    let character_to_load : Char := argFirstChar char_arg
    if env.initError ≠ 0 then some (1, "")
    else if env.newFaceError = FT_Err_Unknown_File_Format then some (1, "")
    else if env.newFaceError ≠ 0 then some (1, "")
    else if env.charIndex character_to_load = 0 then some (1, "")
    else if env.loadError ≠ 0 then some (1, "")
    else if env.glyphFormat ≠ FT_GLYPH_FORMAT_OUTLINE then some (1, "")
    else
      match decomposeOutline env.outline env.decomposeError [] with
      | none => none
      | some (error, glyph_path) =>
        if error ≠ 0 then some (1, "")
        else some (0,
          "// Successfully extracted vector data for character '" ++
            String.mk [character_to_load] ++ "' from " ++ font_path ++ ".\n" ++
            PrintGlyphPath glyph_path)
  | _ => some (1, "")

/-- The disjunction of the eight failure conditions §7 lists, evaluated on
the engine answers of `env`. -/
def mainFailure (env : Env) : Prop :=
  env.argv.length ≠ 3 ∨ env.initError ≠ 0 ∨ env.newFaceError ≠ 0 ∨
    env.charIndex (argFirstChar (env.argv.getD 2 "")) = 0 ∨ env.loadError ≠ 0 ∨
    env.glyphFormat ≠ FT_GLYPH_FORMAT_OUTLINE ∨ env.decomposeError ≠ 0

-- Invariant preservation across callbacks.

theorem contourWF_append (c : Contour) (seg : PathSegment) (h : contourWF c = true) :
    contourWF (c ++ [seg]) = true := by
  cases c with
  | nil => simp [contourWF] at h
  | cons s rest => simpa [contourWF] using h

theorem pathWF_pushBackLast (p : GlyphPath) (seg : PathSegment) (hp : p ≠ [])
    (h : pathWF p = true) : pathWF (pushBackLast p seg) = true := by
  rcases List.eq_nil_or_concat p with rfl | ⟨q, c, hqc⟩
  · exact absurd rfl hp
  · rw [List.concat_eq_append] at hqc
    subst hqc
    rw [pushBackLast_append]
    simp only [pathWF, List.all_append, List.all_cons, List.all_nil, Bool.and_true,
      Bool.and_eq_true] at h ⊢
    exact ⟨h.1, contourWF_append c seg h.2⟩

theorem runEvent_pathWF (e : FTEvent) (p q : GlyphPath) (ret : Int)
    (hwf : pathWF p = true) (h : runEvent e p = some (q, ret)) : pathWF q = true := by
  cases e with
  | moveTo pt =>
    rw [runEvent, MoveToFunc_eq] at h
    simp only [Option.some.injEq, Prod.mk.injEq] at h
    obtain ⟨rfl, rfl⟩ := h
    simp only [pathWF, List.all_append, List.all_cons, List.all_nil, Bool.and_true,
      Bool.and_eq_true]
    exact ⟨by simpa [pathWF] using hwf, by simp [contourWF]⟩
  | lineTo pt =>
    cases p with
    | nil => simp [runEvent, LineToFunc] at h
    | cons c0 rest =>
      rw [runEvent, LineToFunc_ne_nil _ _ (by simp)] at h
      simp only [Option.some.injEq, Prod.mk.injEq] at h
      obtain ⟨rfl, rfl⟩ := h
      exact pathWF_pushBackLast _ _ (by simp) hwf
  | conicTo ctl pt =>
    cases p with
    | nil => simp [runEvent, ConicToFunc] at h
    | cons c0 rest =>
      rw [runEvent, ConicToFunc_ne_nil _ _ _ (by simp)] at h
      simp only [Option.some.injEq, Prod.mk.injEq] at h
      obtain ⟨rfl, rfl⟩ := h
      exact pathWF_pushBackLast _ _ (by simp) hwf
  | cubicTo c1 c2 pt =>
    rw [runEvent, CubicToFunc] at h
    simp only [Option.some.injEq, Prod.mk.injEq] at h
    obtain ⟨rfl, rfl⟩ := h
    exact hwf

theorem runEvents_pathWF (es : List FTEvent) (p q : GlyphPath)
    (hwf : pathWF p = true) (h : runEvents es p = some q) : pathWF q = true := by
  induction es generalizing p with
  | nil =>
    simp only [runEvents, Option.some.injEq] at h
    exact h ▸ hwf
  | cons e es ih =>
    rw [runEvents] at h
    cases he : runEvent e p with
    | none => rw [he] at h; simp at h
    | some pr =>
      obtain ⟨p1, r1⟩ := pr
      rw [he] at h
      dsimp only at h
      by_cases hr : r1 = 0
      · rw [if_pos hr] at h
        exact ih p1 (runEvent_pathWF e p p1 r1 hwf he) h
      · rw [if_neg hr] at h
        simp at h

/-- The §3 invariant: a `MOVE_TO`/`LINE_TO` segment's control point is the
zero point. -/
def segControlZero (seg : PathSegment) : Prop :=
  seg.type = PointType.MOVE_TO ∨ seg.type = PointType.LINE_TO → seg.control = ⟨0, 0⟩

/-- Every segment of every contour satisfies `segControlZero`. -/
def controlZeroInv (path : GlyphPath) : Prop :=
  ∀ c ∈ path, ∀ seg ∈ c, segControlZero seg

theorem controlZeroInv_pushBackLast (p : GlyphPath) (seg : PathSegment) (hp : p ≠ [])
    (hinv : controlZeroInv p) (hseg : segControlZero seg) :
    controlZeroInv (pushBackLast p seg) := by
  rcases List.eq_nil_or_concat p with rfl | ⟨q, c, hqc⟩
  · exact absurd rfl hp
  · rw [List.concat_eq_append] at hqc
    subst hqc
    rw [pushBackLast_append]
    intro c' hc' s hs
    rcases List.mem_append.mp hc' with hq | hc1
    · exact hinv c' (List.mem_append.mpr (Or.inl hq)) s hs
    · simp only [List.mem_singleton] at hc1
      subst hc1
      rcases List.mem_append.mp hs with hs1 | hs1
      · exact hinv c (by simp) s hs1
      · simp only [List.mem_singleton] at hs1
        subst hs1
        exact hseg

theorem runEvent_controlZero (e : FTEvent) (p q : GlyphPath) (ret : Int)
    (hinv : controlZeroInv p) (h : runEvent e p = some (q, ret)) : controlZeroInv q := by
  cases e with
  | moveTo pt =>
    rw [runEvent, MoveToFunc_eq] at h
    simp only [Option.some.injEq, Prod.mk.injEq] at h
    obtain ⟨rfl, rfl⟩ := h
    intro c hc s hs
    rcases List.mem_append.mp hc with hc1 | hc1
    · exact hinv c hc1 s hs
    · simp only [List.mem_singleton] at hc1
      subst hc1
      simp only [List.mem_singleton] at hs
      subst hs
      intro _
      rfl
  | lineTo pt =>
    cases p with
    | nil => simp [runEvent, LineToFunc] at h
    | cons c0 rest =>
      rw [runEvent, LineToFunc_ne_nil _ _ (by simp)] at h
      simp only [Option.some.injEq, Prod.mk.injEq] at h
      obtain ⟨rfl, rfl⟩ := h
      exact controlZeroInv_pushBackLast _ _ (by simp) hinv (fun _ => rfl)
  | conicTo ctl pt =>
    cases p with
    | nil => simp [runEvent, ConicToFunc] at h
    | cons c0 rest =>
      rw [runEvent, ConicToFunc_ne_nil _ _ _ (by simp)] at h
      simp only [Option.some.injEq, Prod.mk.injEq] at h
      obtain ⟨rfl, rfl⟩ := h
      refine controlZeroInv_pushBackLast _ _ (by simp) hinv ?_
      intro hor
      rcases hor with h1 | h1 <;> exact PointType.noConfusion h1
  | cubicTo c1 c2 pt =>
    rw [runEvent, CubicToFunc] at h
    simp only [Option.some.injEq, Prod.mk.injEq] at h
    obtain ⟨rfl, rfl⟩ := h
    exact hinv

theorem runEvents_controlZero (es : List FTEvent) (p q : GlyphPath)
    (hinv : controlZeroInv p) (h : runEvents es p = some q) : controlZeroInv q := by
  induction es generalizing p with
  | nil =>
    simp only [runEvents, Option.some.injEq] at h
    exact h ▸ hinv
  | cons e es ih =>
    rw [runEvents] at h
    cases he : runEvent e p with
    | none => rw [he] at h; simp at h
    | some pr =>
      obtain ⟨p1, r1⟩ := pr
      rw [he] at h
      dsimp only at h
      by_cases hr : r1 = 0
      · rw [if_pos hr] at h
        exact ih p1 (runEvent_controlZero e p p1 r1 hinv he) h
      · rw [if_neg hr] at h
        simp at h

-- Rendering: the source formatter agrees with the spec-side formatter.

theorem setwRight_eq_rightAlign (w : Nat) (s : String) : setwRight w s = rightAlign w s := by
  unfold setwRight rightAlign
  by_cases h : s.length < w
  · simp [h]
  · have h0 : w - s.length = 0 := Nat.sub_eq_zero_of_le (Nat.le_of_not_lt h)
    simp [h, h0]

theorem renderSegment_eq_spec (segment : PathSegment) :
    renderSegment segment = "      " ++ segmentLineSpec segment ++ "\n" := by
  obtain ⟨t, pt, ctl⟩ := segment
  cases t <;>
    · simp only [renderSegment, segmentLineSpec, coordSpec, setwRight_eq_rightAlign,
        String.append_assoc]
      rfl

theorem renderContours_eq_spec (path : GlyphPath) (i : Nat) :
    renderContours path i = contoursSpec (i + 1) path := by
  induction path generalizing i with
  | nil => rfl
  | cons c rest ih =>
    have hmap : c.map renderSegment = c.map (fun s => "      " ++ segmentLineSpec s ++ "\n") :=
      List.map_congr_left (fun s _ => renderSegment_eq_spec s)
    rw [renderContours, contoursSpec, contourBlockSpec, ih, setwRight_eq_rightAlign, hmap]

-- The engine's decomposition never aborts with these callbacks.

theorem decomposeOutline_eq (outline : List ContourSpec) (engineStatus : Int)
    (p : GlyphPath) :
    decomposeOutline outline engineStatus p =
      some (engineStatus, p ++ outline.map contourPath) := by
  rw [decomposeOutline, runEvents_outline]
  rfl

-- Concrete environments for exercising `mainRun`.

/-- Replace the argument vector of an environment. -/
def setArgv (env : Env) (argv : List String) : Env :=
  ⟨argv, env.initError, env.newFaceError, env.charIndex, env.loadError,
    env.glyphFormat, env.outline, env.decomposeError⟩

/-- An environment in which every engine call succeeds. -/
def envOk : Env :=
  ⟨["get_char", "font.ttf", "A"], 0, 0, fun _ => 1, 0, FT_GLYPH_FORMAT_OUTLINE, [], 0⟩

/-- An environment whose only anomaly is the empty argument vector. -/
def envUsage : Env :=
  ⟨[], 0, 0, fun _ => 1, 0, FT_GLYPH_FORMAT_OUTLINE, [], 0⟩

-- --- Claims ---

/-- C1: driving the callbacks over the protocol-respecting event stream of an
outline (each contour opened by exactly one `moveTo` followed by its edge
events), starting from the empty accumulator, yields exactly the outline's
contours in source order: `n` contours, the `i`-th being `contourPath` of the
`i`-th source contour — one `MOVE_TO` segment for the opening callback
followed by one segment per edge callback carrying that callback's kind, end
point and (for `QuadTo`) control point — hence `1 + k_i` segments. -/
theorem C1_accumulation_faithful (outline : List ContourSpec) :
    runEvents (outlineEvents outline) [] = some (outline.map contourPath) ∧
      (outline.map contourPath).length = outline.length ∧
      (outline.map contourPath).map List.length =
        outline.map (fun cs => 1 + cs.edges.length) := by
  refine ⟨by simpa using runEvents_outline outline [], by simp, ?_⟩
  simp [contourPath, Nat.add_comm]

/-- C2: every completed run of callback events from the empty accumulator —
in particular any protocol-respecting decomposition, and any prefix of one,
i.e. the state after every individual callback invocation — leaves an
accumulator in which no contour is empty and every contour's first segment is
`MOVE_TO`. -/
theorem C2_contours_wellformed (es : List FTEvent) (q : GlyphPath)
    (h : runEvents es [] = some q) : pathWF q = true :=
  runEvents_pathWF es [] q rfl h

theorem C2_contours_wellformed_witness :
    pathWF [[⟨PointType.MOVE_TO, ⟨1, 2⟩, ⟨0, 0⟩⟩]] = true :=
  C2_contours_wellformed [.moveTo ⟨1, 2⟩]
    [[⟨PointType.MOVE_TO, ⟨1, 2⟩, ⟨0, 0⟩⟩]] (by decide)

/-- C3: `PrintGlyphPath` prints exactly what §4.3 describes: each contour
under a 1-based index right-aligned to width 2, and each segment as
`MoveTo (x, y)`, `LineTo (x, y)` or `QuadTo (controlX, controlY) (x, y)` with
every coordinate right-aligned to a field width of 5; the spec-side renderer
has exactly these three forms, so no other kind is ever rendered. -/
theorem C3_print_format (path : GlyphPath) :
    PrintGlyphPath path = printGlyphPathSpec path := by
  rw [PrintGlyphPath, printGlyphPathSpec, renderContours_eq_spec]

/-- C4: with the external FreeType calls answered by `env`, the program exits
0 exactly when every stage succeeds, exits 1 on every one of the eight
failure conditions, and on every failure path writes nothing — in particular
no `GlyphPath` — to standard output. -/
theorem C4_exit_codes (env : Env) (code : Int) (output : String)
    (h : mainRun env = some (code, output)) :
    (code = 0 ∨ code = 1) ∧ (code = 1 ↔ mainFailure env) ∧ (code = 1 → output = "") := by
  obtain ⟨argv, ie, fe, ci, le, gf, ol, de⟩ := env
  rcases argv with _ | ⟨a0, _ | ⟨a1, _ | ⟨a2, _ | ⟨a3, rest⟩⟩⟩⟩
  · simp only [mainRun, Option.some.injEq, Prod.mk.injEq] at h
    obtain ⟨rfl, rfl⟩ := h
    exact ⟨Or.inr rfl, ⟨fun _ => Or.inl (by simp [mainFailure]), fun _ => rfl⟩, fun _ => rfl⟩
  · simp only [mainRun, Option.some.injEq, Prod.mk.injEq] at h
    obtain ⟨rfl, rfl⟩ := h
    exact ⟨Or.inr rfl, ⟨fun _ => Or.inl (by simp [mainFailure]), fun _ => rfl⟩, fun _ => rfl⟩
  · simp only [mainRun, Option.some.injEq, Prod.mk.injEq] at h
    obtain ⟨rfl, rfl⟩ := h
    exact ⟨Or.inr rfl, ⟨fun _ => Or.inl (by simp [mainFailure]), fun _ => rfl⟩, fun _ => rfl⟩
  · simp only [mainRun, decomposeOutline_eq] at h
    split_ifs at h with h1 h2 h3 h4 h5 h6 h7
    · simp only [Option.some.injEq, Prod.mk.injEq] at h
      obtain ⟨rfl, rfl⟩ := h
      exact ⟨Or.inr rfl,
        ⟨fun _ => Or.inr (Or.inl h1), fun _ => rfl⟩, fun _ => rfl⟩
    · simp only [Option.some.injEq, Prod.mk.injEq] at h
      obtain ⟨rfl, rfl⟩ := h
      have hfe : fe ≠ 0 := by rw [h2]; decide
      exact ⟨Or.inr rfl,
        ⟨fun _ => Or.inr (Or.inr (Or.inl hfe)), fun _ => rfl⟩, fun _ => rfl⟩
    · simp only [Option.some.injEq, Prod.mk.injEq] at h
      obtain ⟨rfl, rfl⟩ := h
      exact ⟨Or.inr rfl,
        ⟨fun _ => Or.inr (Or.inr (Or.inl h3)), fun _ => rfl⟩, fun _ => rfl⟩
    · simp only [Option.some.injEq, Prod.mk.injEq] at h
      obtain ⟨rfl, rfl⟩ := h
      refine ⟨Or.inr rfl,
        ⟨fun _ => Or.inr (Or.inr (Or.inr (Or.inl ?_))), fun _ => rfl⟩, fun _ => rfl⟩
      simpa [mainFailure] using h4
    · simp only [Option.some.injEq, Prod.mk.injEq] at h
      obtain ⟨rfl, rfl⟩ := h
      exact ⟨Or.inr rfl,
        ⟨fun _ => Or.inr (Or.inr (Or.inr (Or.inr (Or.inl h5)))), fun _ => rfl⟩, fun _ => rfl⟩
    · simp only [Option.some.injEq, Prod.mk.injEq] at h
      obtain ⟨rfl, rfl⟩ := h
      exact ⟨Or.inr rfl,
        ⟨fun _ => Or.inr (Or.inr (Or.inr (Or.inr (Or.inr (Or.inl h6))))), fun _ => rfl⟩,
        fun _ => rfl⟩
    · simp only [Option.some.injEq, Prod.mk.injEq] at h
      obtain ⟨rfl, rfl⟩ := h
      exact ⟨Or.inr rfl,
        ⟨fun _ => Or.inr (Or.inr (Or.inr (Or.inr (Or.inr (Or.inr h7))))), fun _ => rfl⟩,
        fun _ => rfl⟩
    · simp only [Option.some.injEq, Prod.mk.injEq] at h
      obtain ⟨rfl, rfl⟩ := h
      refine ⟨Or.inl rfl, ⟨fun h0 => absurd h0 (by decide), fun hf => ?_⟩,
        fun h0 => absurd h0 (by decide)⟩
      exfalso
      rcases hf with hf | hf | hf | hf | hf | hf | hf
      · exact hf (by simp)
      · exact h1 hf
      · exact h3 hf
      · exact h4 (by simpa using hf)
      · exact h5 hf
      · exact h6 hf
      · exact h7 hf
  · simp only [mainRun, Option.some.injEq, Prod.mk.injEq] at h
    obtain ⟨rfl, rfl⟩ := h
    exact ⟨Or.inr rfl, ⟨fun _ => Or.inl (by simp [mainFailure]), fun _ => rfl⟩, fun _ => rfl⟩

theorem C4_exit_codes_witness :
    (((1 : Int) = 0 ∨ (1 : Int) = 1) ∧ ((1 : Int) = 1 ↔ mainFailure envUsage) ∧
      ((1 : Int) = 1 → ("" : String) = "")) :=
  C4_exit_codes envUsage 1 "" (by decide)

/-- C5 as stated is false: invoked before any `moveTo` (on the empty
accumulator), the edge callbacks do not fail fast behind a defensive check —
there is no check in the source, and `path->back()` on the empty vector is
undefined behaviour, modelled as the absence of any defined result rather
than as an error status returned with the accumulator intact. -/
theorem C5_counterexample :
    LineToFunc ⟨3, 4⟩ [] = none ∧ ConicToFunc ⟨1, 2⟩ ⟨3, 4⟩ [] = none :=
  ⟨rfl, rfl⟩

/-- C5 amended: if a `lineTo` or `quadTo` callback is invoked before any
`moveTo` callback, the implementation performs no defensive check and
unconditionally dereferences the absent last contour, which is undefined
behaviour (no defined result in the model). -/
theorem C5_no_defensive_check (pt ctl : VectorPoint) :
    LineToFunc pt [] = none ∧ ConicToFunc ctl pt [] = none :=
  ⟨rfl, rfl⟩

/-- C6: `CubicToFunc` leaves any accumulator completely unchanged — no
contour added, no segment appended — and returns the continue value 0. -/
theorem C6_cubic_noop (control1 control2 pt : VectorPoint) (path : GlyphPath) :
    CubicToFunc control1 control2 pt path = some (path, 0) :=
  rfl

/-- C7: in every accumulator a completed callback run builds from the empty
one, each `MOVE_TO`/`LINE_TO` segment carries the zero control point; and the
rendering of a `MOVE_TO`/`LINE_TO` segment does not depend on its control
point. -/
theorem C7_control_point (es : List FTEvent) (q : GlyphPath)
    (h : runEvents es [] = some q) :
    (∀ c ∈ q, ∀ seg ∈ c,
        seg.type = PointType.MOVE_TO ∨ seg.type = PointType.LINE_TO →
          seg.control = ⟨0, 0⟩) ∧
      (∀ (t : PointType) (pt ctl ctl' : VectorPoint),
        t = PointType.MOVE_TO ∨ t = PointType.LINE_TO →
          renderSegment ⟨t, pt, ctl⟩ = renderSegment ⟨t, pt, ctl'⟩) := by
  constructor
  · exact runEvents_controlZero es [] q (by intro c hc; exact absurd hc (List.not_mem_nil c)) h
  · rintro t pt ctl ctl' (rfl | rfl) <;> rfl

theorem C7_control_point_witness :
    ((∀ c ∈ ([[⟨PointType.MOVE_TO, ⟨5, 6⟩, ⟨0, 0⟩⟩]] : GlyphPath), ∀ seg ∈ c,
        seg.type = PointType.MOVE_TO ∨ seg.type = PointType.LINE_TO →
          seg.control = ⟨0, 0⟩) ∧
      (∀ (t : PointType) (pt ctl ctl' : VectorPoint),
        t = PointType.MOVE_TO ∨ t = PointType.LINE_TO →
          renderSegment ⟨t, pt, ctl⟩ = renderSegment ⟨t, pt, ctl'⟩)) :=
  C7_control_point [.moveTo ⟨5, 6⟩] [[⟨PointType.MOVE_TO, ⟨5, 6⟩, ⟨0, 0⟩⟩]] (by decide)

/-- C8: accumulation is a deterministic function of the callback sequence —
two completed runs of the identical event sequence, each from the empty
accumulator, yield structurally identical `GlyphPath` values. -/
theorem C8_deterministic (es : List FTEvent) (p q : GlyphPath)
    (h1 : runEvents es [] = some p) (h2 : runEvents es [] = some q) : p = q :=
  Option.some.inj (h1.symm.trans h2)

theorem C8_deterministic_witness :
    ([[⟨PointType.MOVE_TO, ⟨1, 1⟩, ⟨0, 0⟩⟩]] : GlyphPath) =
      [[⟨PointType.MOVE_TO, ⟨1, 1⟩, ⟨0, 0⟩⟩]] :=
  C8_deterministic [.moveTo ⟨1, 1⟩] _ _ (by decide) (by decide)

/-- C9: every invocation of the four callbacks that has a defined result
returns the continue value 0, so the decomposition walk is never aborted by
this core. -/
theorem C9_always_continue (e : FTEvent) (path : GlyphPath) (r : GlyphPath × Int)
    (h : runEvent e path = some r) : r.2 = 0 := by
  cases e with
  | moveTo pt =>
    rw [runEvent, MoveToFunc_eq] at h
    exact (congrArg Prod.snd (Option.some.inj h)).symm
  | lineTo pt =>
    cases path with
    | nil => exact Option.noConfusion h
    | cons c0 rest =>
      rw [runEvent, LineToFunc_ne_nil _ _ (by simp)] at h
      exact (congrArg Prod.snd (Option.some.inj h)).symm
  | conicTo ctl pt =>
    cases path with
    | nil => exact Option.noConfusion h
    | cons c0 rest =>
      rw [runEvent, ConicToFunc_ne_nil _ _ _ (by simp)] at h
      exact (congrArg Prod.snd (Option.some.inj h)).symm
  | cubicTo c1 c2 pt =>
    rw [runEvent, CubicToFunc] at h
    exact (congrArg Prod.snd (Option.some.inj h)).symm

theorem C9_always_continue_witness :
    (([[⟨PointType.MOVE_TO, ⟨0, 0⟩, ⟨0, 0⟩⟩]], (0 : Int)) : GlyphPath × Int).2 = 0 :=
  C9_always_continue (.moveTo ⟨0, 0⟩) []
    ([[⟨PointType.MOVE_TO, ⟨0, 0⟩, ⟨0, 0⟩⟩]], 0) (by decide)

/-- C10: only the first byte of the second command-line argument is used —
two invocations whose character arguments share a first byte behave
identically — and a multi-character argument is not a usage error: with an
otherwise successful engine the program still exits 0. -/
theorem C10_first_byte_only (env : Env) (prog font s t : String)
    (h : argFirstChar s = argFirstChar t) :
    mainRun (setArgv env [prog, font, s]) = mainRun (setArgv env [prog, font, t]) ∧
      ∃ output, mainRun (setArgv envOk ["get_char", "font.ttf", "ab"]) = some (0, output) := by
  constructor
  · simp only [mainRun, setArgv, h]
  · exact ⟨_, rfl⟩

theorem C10_first_byte_only_witness :
    (mainRun (setArgv envOk ["get_char", "font.ttf", "ab"]) =
        mainRun (setArgv envOk ["get_char", "font.ttf", "ax"]) ∧
      ∃ output, mainRun (setArgv envOk ["get_char", "font.ttf", "ab"]) = some (0, output)) :=
  C10_first_byte_only envOk "get_char" "font.ttf" "ab" "ax" rfl
